import Mathlib

/-!
Verification of the `whichscript` provenance-tracking utility against its
specification.  The definitions below are a shallow embedding of
`whichscript/tracker.py` and `whichscript/archiver.py`: the filesystem is an
association list from paths to file data, OS-level primitives that can fail
(`shutil.copyfile`, `os.replace`, opening a `zipfile.ZipFile`) are driven by
boolean oracles in an environment record, and Python exceptions are modelled
with `Except` (the error branch carries the world at raise time, matching
Python's state-preserving exception semantics).
-/

namespace WhichScript

/-- Python substring test over character lists (`pat in s`). -/
def containsSeq (pat : List Char) : List Char → Bool
  | [] => pat.isEmpty
  | c :: rest => pat.isPrefixOf (c :: rest) || containsSeq pat rest

/-- Python `pat in s` on strings. -/
def strContains (s pat : String) : Bool := containsSeq pat.data s.data

/-- Python `s.startswith(p)` (over the character data, so it computes by
kernel reduction). -/
def strStarts (s p : String) : Bool := p.data.isPrefixOf s.data

/-- Python `s.endswith(p)`. -/
def strEnds (s p : String) : Bool := p.data.isSuffixOf s.data

/-- A frame of `inspect.stack()`; only the filename is consulted. -/
structure Frame where
  filename : String
deriving DecidableEq

/-- `_find_calling_script`'s loop body over the reversed stack. -/
def findCSGo (abspath : String → String) (bp cf : String) : List Frame → Option String
  | [] => none
  | f :: rest =>
    if f.filename == cf || strStarts f.filename "<" then
      findCSGo abspath bp cf rest
    else
      let fn := abspath f.filename
      if strStarts fn bp || strContains fn "site-packages" then
        findCSGo abspath bp cf rest
      else some fn

/-- `_find_calling_script(current_file)`: iterates `reversed(inspect.stack())`
(the stack is given innermost-first, as `inspect.stack()` returns it), skipping
the tracker module itself, pseudo-files, frames under `sys.base_prefix` and
frames in `site-packages`. -/
def findCallingScript (abspath : String → String) (bp cf : String)
    (stack : List Frame) : Option String :=
  findCSGo abspath bp cf stack.reverse

/-- A frame survives all of `_find_calling_script`'s filters. -/
def frameQualifies (abspath : String → String) (bp cf : String) (f : Frame) : Bool :=
  !(f.filename == cf || strStarts f.filename "<") &&
  !(strStarts (abspath f.filename) bp || strContains (abspath f.filename) "site-packages")

theorem findCSGo_eq_find? (abspath : String → String) (bp cf : String) :
    ∀ l : List Frame,
      findCSGo abspath bp cf l
        = (l.find? (frameQualifies abspath bp cf)).map (fun f => abspath f.filename)
  | [] => rfl
  | f :: rest => by
    by_cases h1 : (f.filename == cf || strStarts f.filename "<") = true
    · have hq : frameQualifies abspath bp cf f = false := by
        simp [frameQualifies, h1]
      simp [findCSGo, h1, List.find?, hq, findCSGo_eq_find? abspath bp cf rest]
    · by_cases h2 : (strStarts (abspath f.filename) bp
          || strContains (abspath f.filename) "site-packages") = true
      · have hq : frameQualifies abspath bp cf f = false := by
          simp [frameQualifies, h2]
        simp [findCSGo, h1, h2, List.find?, hq, findCSGo_eq_find? abspath bp cf rest]
      · have hq : frameQualifies abspath bp cf f = true := by
          simp only [frameQualifies, Bool.and_eq_true, Bool.not_eq_true']
          exact ⟨by simpa using h1, by simpa using h2⟩
        simp [findCSGo, h1, h2, List.find?, hq]

/-! ### Data model -/

/-- Result of `_git_info` (its internal try/except makes it total: `Option`). -/
structure GitInfo where
  root : Option String
  commit : Option String
  dirty : Bool
deriving DecidableEq

/-- The open-call parameter dict recorded by `_logging_open` (`opener` is
`bool(opener)`). -/
structure OpenParams where
  mode : String
  buffering : Int
  encoding : Option String
  errors : Option String
  newline : Option String
  closefd : Bool
  opener : Bool
deriving DecidableEq

/-- `_collect_runtime_metadata`'s merged dict: the cached static facts
(versions, platform, pip freeze) plus the per-write facts. -/
structure RuntimeMeta where
  staticInfo : List (String × String)
  timestamp : String
  cwd : String
  argv : List String
  git : Option GitInfo
  scriptHash : Option String
deriving DecidableEq

/-- The metadata descriptor assembled by `save_output` / `_record_write`;
`openParams` is only present on the interception path. -/
structure Metadata where
  scriptPath : Option String
  openParams : Option OpenParams
  runtime : RuntimeMeta
deriving DecidableEq

/-- Contents of a `<name>.ws.zip` archive: the optional `metadata.json`
member, the script snapshot member and the `deps/` members, each recorded as
(arcname, source path). -/
structure ArchiveBundle where
  meta : Option Metadata
  script : Option (String × String)
  deps : List (String × String)
deriving DecidableEq

/-- Contents of a file on disk: plain text or a built archive. -/
inductive FileData where
  | text : String → FileData
  | archive : ArchiveBundle → FileData
deriving DecidableEq

/-- The filesystem: an association list from paths to file data (the most
recent write for a path comes first). -/
abbrev Fs := List (String × FileData)

def fsLookup (fs : Fs) (p : String) : Option FileData :=
  (fs.find? (fun e => e.1 == p)).map (fun e => e.2)

def fsWrite (fs : Fs) (p : String) (v : FileData) : Fs := (p, v) :: fs

def fsErase (fs : Fs) (p : String) : Fs := fs.filter (fun e => e.1 != p)

def fsExists (fs : Fs) (p : String) : Bool := (fsLookup fs p).isSome

/-- A wall-clock instant, as consumed by `datetime.now().strftime(...)`. -/
structure Stamp where
  year : Nat
  month : Nat
  day : Nat
  hour : Nat
  minute : Nat
  sec : Nat
deriving DecidableEq

def pad2 (n : Nat) : String := if n < 10 then "0" ++ toString n else toString n

def pad4 (n : Nat) : String :=
  if n < 10 then "000" ++ toString n
  else if n < 100 then "00" ++ toString n
  else if n < 1000 then "0" ++ toString n
  else toString n

/-- `now.strftime('%Y-%m-%d')`. -/
def dateStr (t : Stamp) : String := pad4 t.year ++ "-" ++ pad2 t.month ++ "-" ++ pad2 t.day

/-- `now.strftime('%Y%m%d-%H%M%S')`. -/
def timeCompact (t : Stamp) : String :=
  pad4 t.year ++ pad2 t.month ++ pad2 t.day ++ "-" ++ pad2 t.hour ++ pad2 t.minute ++ pad2 t.sec

/-- `datetime.now().isoformat(timespec='seconds')`. -/
def isoStamp (t : Stamp) : String :=
  dateStr t ++ "T" ++ pad2 t.hour ++ ":" ++ pad2 t.minute ++ ":" ++ pad2 t.sec

/-- Split a character list on `/` (posix path components). -/
def splitSlash : List Char → List (List Char)
  | [] => [[]]
  | c :: rest =>
    if c = '/' then [] :: splitSlash rest
    else
      match splitSlash rest with
      | [] => [[c]]
      | h :: t => (c :: h) :: t

/-- `pathlib.Path(p).name`: the last non-empty path component. -/
def baseName (p : String) : String :=
  String.mk (((splitSlash p.data).filter (fun s => !s.isEmpty)).getLastD [])

/-- `os.path.dirname` (posix separators). -/
def dirName (p : String) : String :=
  let parts := splitSlash p.data
  if parts.length ≤ 1 then "" else String.mk (List.intercalate ['/'] parts.dropLast)

/-- An entry of `sys.modules`: only `__file__` is consulted. -/
structure PyModule where
  file : Option String

/-- The ambient interpreter and OS facts the library consults, including
boolean oracles for the OS primitives that can raise (`shutil.copyfile`,
`os.replace`, opening or writing a `zipfile.ZipFile`). -/
structure Env where
  abspath : String → String
  normcase : String → String
  basePref : String
  trackerFile : String
  stack : List Frame
  now : Stamp
  cwd : String
  argv : List String
  gitFacts : String → Option GitInfo
  hashOf : String → Option String
  staticCache : List (String × String)
  home : String
  platformWin : Bool
  copyfileOk : String → Bool
  replaceOk : String → Bool
  zipOpenOk : Bool
  zipWriteOk : String → Bool
  fileSize : String → Option Nat
  modules : List PyModule
  isStdOrSite : String → Bool
  relpath : String → String → String

/-- The module-level configuration globals of `tracker.py`. -/
structure Cfg where
  writeMetadata : Bool
  snapshotScript : Bool
  snapshotPy : Bool
  localImportsSnapshot : Bool
  localImportsRoots : Option (List String)
  localImportsMaxFiles : Nat
  localImportsMaxBytes : Nat
  archive : Bool
  archiveOnly : Bool
  archiveDir : Option String
  hideSidecars : Bool

/-- Mutable world: the filesystem, the set of paths carrying the Windows
Hidden attribute, the `_skip_logging` flag, and a trace of `_record_write`
invocations (path, open params) kept for specification purposes. -/
structure World where
  fs : Fs
  hidden : List String
  skipLogging : Bool
  trace : List (String × OpenParams)
deriving DecidableEq

/-! ### archiver.py -/

/-- `_norm`: `os.path.normcase(os.path.abspath(p))`. -/
def normP (env : Env) (p : String) : String := env.normcase (env.abspath p)

/-- One iteration of `_select_local_imports`'s loop over `sys.modules`. -/
def selectOne (env : Env) (rootList : List String) (m : PyModule) : Option String :=
  match m.file with
  | none => none
  | some f =>
    if f == "" || !(strEnds f ".py") then none
    else
      let af := normP env f
      if env.isStdOrSite af then none
      else if rootList.isEmpty then some af
      else if rootList.any (fun r => strStarts af (r ++ "/") || af == r) then some af
      else none

/-- `[_norm(r) for r in (roots or []) if r]`. -/
def effectiveRoots (env : Env) (roots : Option (List String)) : List String :=
  ((roots.getD []).filter (fun r => r ≠ "")).map (normP env)

/-- The de-dup-preserving-order loop of `_select_local_imports`. -/
def dedupGo (seen : List String) : List String → List String
  | [] => []
  | p :: rest => if p ∈ seen then dedupGo seen rest else p :: dedupGo (p :: seen) rest

/-- `_select_local_imports(roots)`. -/
def selectLocalImports (env : Env) (roots : Option (List String)) : List String :=
  dedupGo [] (env.modules.filterMap (selectOne env (effectiveRoots env roots)))

/-- The dep-adding loop of `build_archive_for_output`: skips files whose size
cannot be read, breaks once `max_files` or `max_bytes` would be exceeded, and
skips (without counting) files `zf.write` fails on.  Returns the paths
actually added. -/
def addDeps (env : Env) (maxFiles maxBytes : Nat) : List String → Nat → Nat → List String
  | [], _, _ => []
  | p :: rest, total, count =>
    match env.fileSize p with
    | none => addDeps env maxFiles maxBytes rest total count
    | some sz =>
      if maxFiles ≤ count ∨ maxBytes < total + sz then []
      else if env.zipWriteOk p then
        p :: addDeps env maxFiles maxBytes rest (total + sz) (count + 1)
      else addDeps env maxFiles maxBytes rest total count

/-- The dependency files an archive build adds (`if dep_list:` guard plus the
adding loop started at `total = 0`, `count = 0`). -/
def depFiles (env : Env) (roots : Option (List String)) (maxFiles maxBytes : Nat) : List String :=
  let depList := selectLocalImports env roots
  if depList.isEmpty then [] else addDeps env maxFiles maxBytes depList 0 0

/-- `_archive_dest`: `<archive_dir>/<out_name>/<date>/run-<timestamp>/<out_name>.ws.zip`. -/
def archiveDest (archiveDir targetBase : String) (t : Stamp) : String :=
  archiveDir ++ "/" ++ baseName targetBase ++ "/" ++ dateStr t ++ "/run-" ++
    timeCompact t ++ "/" ++ baseName targetBase ++ ".ws.zip"

/-- `build_archive_for_output`.  The error branch carries the filesystem at
raise time (only opening the zip can raise here; per-member failures are
swallowed inside the loops). -/
def buildArchiveForOutput (env : Env) (fs : Fs) (outputPath archiveDir : String)
    (localRoots : Option (List String)) (maxFiles maxBytes : Nat)
    (metadata : Option Metadata) (t : Stamp) : Except Fs (Fs × Option String) :=
  if !(fsExists fs outputPath) then .ok (fs, none)
  else if !env.zipOpenOk then .error fs
  else
    let dest := archiveDest archiveDir outputPath t
    let scriptPy := outputPath ++ ".script.py"
    let scriptRaw := outputPath ++ ".script"
    let script : Option (String × String) :=
      if fsExists fs scriptPy then some ("script.py", scriptPy)
      else if fsExists fs scriptRaw then some ("script.script", scriptRaw)
      else none
    let base :=
      match localRoots with
      | some (r :: _) => r
      | _ => dirName outputPath
    let deps := (depFiles env localRoots maxFiles maxBytes).map
      (fun p => ("deps/" ++ env.relpath base p, p))
    .ok (fsWrite fs dest (FileData.archive { meta := metadata, script := script, deps := deps }),
         some dest)

/-! ### tracker.py -/

/-- `_maybe_set_hidden`: Windows-only `attrib +H`. -/
def maybeSetHidden (env : Env) (w : World) (path : String) (hide : Bool) : World :=
  if !hide then w
  else if env.platformWin && fsExists w.fs path then { w with hidden := path :: w.hidden }
  else w

/-- `_atomic_copy_script`: optional `attrib -H` on Windows, `shutil.copyfile`
to `dst + ".tmp"`, `os.replace`, then `_maybe_set_hidden`.  Errors carry the
world at raise time. -/
def atomicCopyScript (env : Env) (w : World) (dst src : String) (hide : Bool) :
    Except World World :=
  let w1 := if env.platformWin && fsExists w.fs dst then { w with hidden := w.hidden.erase dst }
            else w
  match fsLookup w1.fs src with
  | none => .error w1
  | some content =>
    if !env.copyfileOk dst then .error w1
    else
      let w2 := { w1 with fs := fsWrite w1.fs (dst ++ ".tmp") content }
      if !env.replaceOk dst then .error w2
      else
        let w3 := { w2 with fs := fsWrite (fsErase w2.fs (dst ++ ".tmp")) dst content }
        .ok (maybeSetHidden env w3 dst hide)

/-- `_write_script_snapshots`: sets `_skip_logging`, copies the `.script.py`
sidecar under a swallowing `try/except`, and restores the flag in `finally`. -/
def writeScriptSnapshots (env : Env) (cfg : Cfg) (w : World) (targetBase scriptPath : String) :
    World :=
  let w1 := { w with skipLogging := true }
  let w2 :=
    if cfg.snapshotPy then
      match atomicCopyScript env w1 (targetBase ++ ".script.py") scriptPath cfg.hideSidecars with
      | .ok w' => w'
      | .error w' => w'
    else w1
  { w2 with skipLogging := false }

/-- `_CFG_ARCHIVE_DIR or os.path.join(os.path.expanduser('~'), 'whichscript_logs')`. -/
def resolveArchiveDir (env : Env) (cfg : Cfg) : String :=
  match cfg.archiveDir with
  | some d => if d == "" then env.home ++ "/whichscript_logs" else d
  | none => env.home ++ "/whichscript_logs"

/-- `_cfg_local_imports_roots or ([os.path.dirname(calling_script)] if calling_script else [])`. -/
def autoArchiveRoots (cfg : Cfg) (callingScript : Option String) : List String :=
  match cfg.localImportsRoots with
  | some (r :: rs) => r :: rs
  | _ =>
    match callingScript with
    | some cs => [dirName cs]
    | none => []

/-- `_auto_archive`: builds the central archive under a swallowing
`try/except` (note the archiver is called with its default
`max_files`/`max_bytes` of 500 and 50,000,000). -/
def autoArchive (env : Env) (cfg : Cfg) (w : World) (targetBase : String)
    (metadata : Option Metadata) (callingScript : Option String) : World :=
  if !cfg.archive then w
  else
    match buildArchiveForOutput env w.fs targetBase (resolveArchiveDir env cfg)
        (some (autoArchiveRoots cfg callingScript)) 500 50000000 metadata env.now with
    | .ok (fs', _) => { w with fs := fs' }
    | .error fs' => { w with fs := fs' }

/-- `_collect_runtime_metadata` (subprocess-backed facts are env oracles whose
internal try/excepts already make them total). -/
def collectRuntimeMetadata (env : Env) (callingScript : Option String) : RuntimeMeta :=
  { staticInfo := env.staticCache
    timestamp := isoStamp env.now
    cwd := env.cwd
    argv := env.argv
    git := callingScript.bind env.gitFacts
    scriptHash := callingScript.bind env.hashOf }

/-- `_record_write(path, params)`.  Directory creation is not modelled; the
invocation itself is appended to the world's trace.  Note the source writes no
local metadata sidecar ("No local metadata write"). -/
def recordWrite (env : Env) (cfg : Cfg) (w : World) (path : String) (params : OpenParams) :
    World :=
  let w := { w with trace := w.trace ++ [(path, params)] }
  let callingScript := findCallingScript env.abspath env.basePref env.trackerFile env.stack
  let metadata : Option Metadata :=
    if cfg.writeMetadata then
      some { scriptPath := callingScript
             openParams := some params
             runtime := collectRuntimeMetadata env callingScript }
    else none
  let w :=
    match callingScript with
    | some cs => if fsExists w.fs cs then writeScriptSnapshots env cfg w path cs else w
    | none => w
  autoArchive env cfg w path metadata callingScript

/-- `save_output(data, output_path)`: writes the output, runs the same
pipeline as `_record_write` (without open params), writes no metadata sidecar
("Do not write local metadata sidecar per user preference") and returns
`output_path + ".metadata.json"`. -/
def saveOutput (env : Env) (cfg : Cfg) (w : World) (data : String) (outputPath : String) :
    World × String :=
  let w := { w with fs := fsWrite w.fs outputPath (FileData.text data) }
  let callingScript := findCallingScript env.abspath env.basePref env.trackerFile env.stack
  let metadata : Option Metadata :=
    if cfg.writeMetadata then
      some { scriptPath := callingScript
             openParams := none
             runtime := collectRuntimeMetadata env callingScript }
    else none
  let w :=
    match callingScript with
    | some cs => if fsExists w.fs cs then writeScriptSnapshots env cfg w outputPath cs else w
    | none => w
  let w := autoArchive env cfg w outputPath metadata callingScript
  (w, outputPath ++ ".metadata.json")

/-! ### Auto-logging toggle and the replacement open -/

/-- What `builtins.open` currently points at. -/
inductive OpenFn where
  | original
  | loggingHook
deriving DecidableEq

/-- `builtins.open` together with the `_log_active` flag. -/
structure OpenState where
  openPtr : OpenFn
  logActive : Bool
deriving DecidableEq

/-- State at module import: `_original_open = builtins.open`, `_log_active = False`. -/
def initOpenState : OpenState := { openPtr := OpenFn.original, logActive := false }

def enableAutoLogging (s : OpenState) : OpenState :=
  if !s.logActive then { openPtr := OpenFn.loggingHook, logActive := true } else s

def disableAutoLogging (s : OpenState) : OpenState :=
  if s.logActive then { openPtr := OpenFn.original, logActive := false } else s

inductive TAction where
  | enable
  | disable
deriving DecidableEq

def applyAction (s : OpenState) (a : TAction) : OpenState :=
  match a with
  | .enable => enableAutoLogging s
  | .disable => disableAutoLogging s

def runActions (acts : List TAction) (s : OpenState) : OpenState := acts.foldl applyAction s

/-- The argument tuple of an `open` call (`opener` records `bool(opener)`). -/
structure OpenArgs where
  file : String
  mode : String
  buffering : Int
  encoding : Option String
  errors : Option String
  newline : Option String
  closefd : Bool
  opener : Bool
deriving DecidableEq

/-- The params dict `_logging_open` hands to `_record_write`. -/
def toParams (a : OpenArgs) : OpenParams :=
  { mode := a.mode, buffering := a.buffering, encoding := a.encoding,
    errors := a.errors, newline := a.newline, closefd := a.closefd, opener := a.opener }

/-- A file handle: fully determined by the arguments the original open got. -/
structure Handle where
  args : OpenArgs
deriving DecidableEq

def modeHas (mode ch : String) : Bool := strContains mode ch

/-- `any(m in mode for m in ("w", "a", "x"))`. -/
def modeTriggers (mode : String) : Bool :=
  modeHas mode "w" || modeHas mode "a" || modeHas mode "x"

/-- `_original_open`: mode-dependent effect of the builtin open; raises on
exclusive-create of an existing file and on reading a missing one. -/
def originalOpen (w : World) (a : OpenArgs) : Except World (Handle × World) :=
  if modeHas a.mode "x" then
    if fsExists w.fs a.file then .error w
    else .ok (⟨a⟩, { w with fs := fsWrite w.fs a.file (FileData.text "") })
  else if modeHas a.mode "w" then
    .ok (⟨a⟩, { w with fs := fsWrite w.fs a.file (FileData.text "") })
  else if modeHas a.mode "a" then
    .ok (⟨a⟩, if fsExists w.fs a.file then w
              else { w with fs := fsWrite w.fs a.file (FileData.text "") })
  else if fsExists w.fs a.file then .ok (⟨a⟩, w)
  else .error w

/-- `_logging_open`: calls `_original_open` with the identical arguments,
then records the write when `_log_active and not _skip_logging and
any(m in mode for m in ("w","a","x"))`. -/
def loggingOpen (env : Env) (cfg : Cfg) (st : OpenState) (w : World) (a : OpenArgs) :
    Except World (Handle × World) :=
  match originalOpen w a with
  | .error w' => .error w'
  | .ok (fh, w1) =>
    if st.logActive && !w1.skipLogging && modeTriggers a.mode then
      .ok (fh, recordWrite env cfg w1 a.file (toParams a))
    else .ok (fh, w1)

/-! ### Generic helper lemmas -/

theorem fsLookup_write_self (fs : Fs) (p : String) (v : FileData) :
    fsLookup (fsWrite fs p v) p = some v := by
  simp [fsLookup, fsWrite, List.find?]

theorem fsLookup_write_ne (fs : Fs) (p q : String) (v : FileData) (h : p ≠ q) :
    fsLookup (fsWrite fs p v) q = fsLookup fs q := by
  simp only [fsLookup, fsWrite]
  rw [List.find?_cons_of_neg]
  simp [h]

theorem fsLookup_erase_ne (fs : Fs) (p q : String) (h : p ≠ q) :
    fsLookup (fsErase fs p) q = fsLookup fs q := by
  induction fs with
  | nil => rfl
  | cons e rest ih =>
    by_cases hep : e.1 = p
    · have hkeep : (e.1 != p) = false := by simp [hep]
      have heq : (e.1 == q) = false := by simp [hep]; exact h
      simp only [fsErase, List.filter] at *
      rw [hkeep]
      simp only [fsLookup, List.find?, heq]
      exact ih
    · have hkeep : (e.1 != p) = true := by simp [hep]
      simp only [fsErase, List.filter] at *
      rw [hkeep]
      by_cases heq : e.1 = q
      · simp [fsLookup, List.find?, heq]
      · have heq' : (e.1 == q) = false := by simp [heq]
        simp only [fsLookup, List.find?, heq']
        exact ih

/-- Two strings with incompatible endings never coincide, whatever precedes
them. -/
theorem append_tail_ne (s t : String)
    (hlen : s.data.length ≤ t.data.length)
    (hne : s.data.reverse ≠ t.data.reverse.take s.data.length)
    (a b : String) : a ++ s ≠ b ++ t := by
  intro h
  apply hne
  have hd : a.data ++ s.data = b.data ++ t.data := by
    simpa [String.data_append] using congrArg String.data h
  have hr : s.data.reverse ++ a.data.reverse = t.data.reverse ++ b.data.reverse := by
    simpa [List.reverse_append] using congrArg List.reverse hd
  have h1 : (s.data.reverse ++ a.data.reverse).take s.data.length = s.data.reverse := by
    have hlr : s.data.length = s.data.reverse.length := (List.length_reverse _).symm
    rw [hlr, List.take_left]
  have h2 : (t.data.reverse ++ b.data.reverse).take s.data.length
      = t.data.reverse.take s.data.length := by
    apply List.take_append_of_le_length
    simpa using hlen
  rw [← h1, hr, h2]

theorem self_ne_append (a t : String) (ht : t.data ≠ []) : a ≠ a ++ t := by
  intro h
  have hlen := congrArg (fun s : String => s.data.length) h
  simp only [String.data_append, List.length_append] at hlen
  have : t.data.length = 0 := by omega
  exact ht (List.length_eq_zero.mp this)

/-- The world carried by an `Except World World` result, whichever branch. -/
def exWorld : Except World World → World
  | .ok w => w
  | .error w => w

theorem maybeSetHidden_parts (env : Env) (w : World) (p : String) (h : Bool) :
    (maybeSetHidden env w p h).fs = w.fs ∧
    (maybeSetHidden env w p h).trace = w.trace ∧
    (maybeSetHidden env w p h).skipLogging = w.skipLogging := by
  unfold maybeSetHidden
  split
  · exact ⟨rfl, rfl, rfl⟩
  · split
    · exact ⟨rfl, rfl, rfl⟩
    · exact ⟨rfl, rfl, rfl⟩

theorem atomicCopy_parts (env : Env) (w : World) (dst src : String) (h : Bool) :
    (exWorld (atomicCopyScript env w dst src h)).trace = w.trace ∧
    (exWorld (atomicCopyScript env w dst src h)).skipLogging = w.skipLogging := by
  unfold atomicCopyScript maybeSetHidden
  repeat' split
  all_goals
    cases hsrc : fsLookup w.fs src <;> simp only [hsrc, exWorld] <;> (repeat' split) <;> simp

/-! ### C2: caller identification -/

/-- C2 (amended): `_find_calling_script` walks `reversed(inspect.stack())`,
i.e. from the **outermost** frame inwards, and returns the absolute path of
the first frame in that order that is not the tracker module, not a
pseudo-file, not under `sys.base_prefix` and not in a `site-packages` path;
`None` exactly when no frame qualifies (`List.find?` returns `none` then). -/
theorem findCallingScript_outermost (abspath : String → String) (bp cf : String)
    (stack : List Frame) :
    findCallingScript abspath bp cf stack
      = (stack.reverse.find? (frameQualifies abspath bp cf)).map
          (fun f => abspath f.filename) :=
  findCSGo_eq_find? abspath bp cf stack.reverse

/-- C2 counterexample: with the stack listed innermost-first as
`inspect.stack()` returns it, the innermost qualifying frame is
`/home/u/helper.py`, yet `_find_calling_script` returns the outermost one,
`/home/u/main.py`. -/
theorem findCallingScript_innermost_cex :
    findCallingScript (fun s => s) "/usr/lib/python3" "/lib/whichscript/tracker.py"
        [⟨"/home/u/helper.py"⟩, ⟨"/home/u/main.py"⟩] = some "/home/u/main.py"
    ∧ frameQualifies (fun s => s) "/usr/lib/python3" "/lib/whichscript/tracker.py"
        ⟨"/home/u/helper.py"⟩ = true
    ∧ ("/home/u/main.py" : String) ≠ "/home/u/helper.py" := by
  exact ⟨by decide, by decide, by decide⟩

/-! ### C9: enable/disable round trip -/

/-- Invariant tying `builtins.open` to `_log_active`. -/
def openStateInv (s : OpenState) : Prop :=
  s.openPtr = if s.logActive then OpenFn.loggingHook else OpenFn.original

theorem applyAction_inv {s : OpenState} (h : openStateInv s) (a : TAction) :
    openStateInv (applyAction s a) := by
  cases a
  · unfold applyAction enableAutoLogging
    cases hl : s.logActive
    · simp [openStateInv]
    · simpa [openStateInv, hl] using h
  · unfold applyAction disableAutoLogging
    cases hl : s.logActive
    · simpa [openStateInv, hl] using h
    · simp [openStateInv]

theorem runActions_inv (acts : List TAction) (s : OpenState) (h : openStateInv s) :
    openStateInv (runActions acts s) := by
  induction acts generalizing s with
  | nil => exact h
  | cons a rest ih => exact ih (applyAction s a) (applyAction_inv h a)

/-- C9: `enable_auto_logging` is idempotent, and after any sequence of
enable/disable calls (from the state captured at module import) that ends in
`disable_auto_logging`, `builtins.open` is exactly the original open — the
original is never lost by re-enabling. -/
theorem enable_disable_roundtrip :
    (∀ s : OpenState, enableAutoLogging (enableAutoLogging s) = enableAutoLogging s) ∧
    (∀ acts : List TAction,
      (runActions (acts ++ [TAction.disable]) initOpenState).openPtr = OpenFn.original) := by
  constructor
  · intro s
    unfold enableAutoLogging
    cases hl : s.logActive <;> simp [hl]
  · intro acts
    have hinv : openStateInv (runActions acts initOpenState) :=
      runActions_inv acts initOpenState (by simp [openStateInv, initOpenState])
    have hfold : runActions (acts ++ [TAction.disable]) initOpenState
        = disableAutoLogging (runActions acts initOpenState) := by
      simp [runActions, List.foldl_append, applyAction]
    rw [hfold]
    unfold disableAutoLogging
    cases hl : (runActions acts initOpenState).logActive
    · simpa [openStateInv, hl] using hinv
    · simp

theorem writeSnapshots_parts (env : Env) (cfg : Cfg) (w : World) (tb sp : String) :
    (writeScriptSnapshots env cfg w tb sp).trace = w.trace ∧
    (writeScriptSnapshots env cfg w tb sp).skipLogging = false := by
  have hac := atomicCopy_parts env { w with skipLogging := true } (tb ++ ".script.py") sp
      cfg.hideSidecars
  unfold writeScriptSnapshots
  refine ⟨?_, rfl⟩
  split
  · cases hres : atomicCopyScript env { w with skipLogging := true } (tb ++ ".script.py") sp
        cfg.hideSidecars with
    | ok w' =>
      rw [hres] at hac
      simp only [hres]
      simpa [exWorld] using hac.1
    | error w' =>
      rw [hres] at hac
      simp only [hres]
      simpa [exWorld] using hac.1
  · rfl

theorem autoArchive_parts (env : Env) (cfg : Cfg) (w : World) (tb : String)
    (m : Option Metadata) (cs : Option String) :
    (autoArchive env cfg w tb m cs).trace = w.trace ∧
    (autoArchive env cfg w tb m cs).hidden = w.hidden ∧
    (autoArchive env cfg w tb m cs).skipLogging = w.skipLogging := by
  unfold autoArchive
  split
  · exact ⟨rfl, rfl, rfl⟩
  · split <;> exact ⟨rfl, rfl, rfl⟩

theorem recordWrite_trace (env : Env) (cfg : Cfg) (w : World) (p : String)
    (params : OpenParams) :
    (recordWrite env cfg w p params).trace = w.trace ++ [(p, params)] := by
  simp only [recordWrite]
  cases hcs : findCallingScript env.abspath env.basePref env.trackerFile env.stack with
  | none =>
    simp only [hcs]
    rw [(autoArchive_parts _ _ _ _ _ _).1]
  | some cs =>
    simp only [hcs]
    by_cases hex : fsExists w.fs cs = true
    · rw [if_pos hex, (autoArchive_parts _ _ _ _ _ _).1, (writeSnapshots_parts _ _ _ _ _).1]
    · rw [if_neg hex, (autoArchive_parts _ _ _ _ _ _).1]

theorem originalOpen_handle (w : World) (a : OpenArgs) (fh : Handle) (w1 : World)
    (h : originalOpen w a = .ok (fh, w1)) : fh = ⟨a⟩ := by
  unfold originalOpen at h
  repeat' split at h
  all_goals simp_all

theorem originalOpen_parts (w : World) (a : OpenArgs) (fh : Handle) (w1 : World)
    (h : originalOpen w a = .ok (fh, w1)) :
    w1.skipLogging = w.skipLogging ∧ w1.trace = w.trace ∧ w1.hidden = w.hidden := by
  unfold originalOpen at h
  repeat' split at h
  all_goals simp_all
  all_goals
    obtain ⟨h1, h2⟩ := h
    subst h2
    exact ⟨rfl, rfl, rfl⟩

/-! ### Shared concrete sample inputs (used by witnesses and counterexamples) -/

def envW : Env :=
  { abspath := fun s => s
    normcase := fun s => s
    basePref := "/usr/lib/python3"
    trackerFile := "/lib/whichscript/tracker.py"
    stack := [⟨"/home/u/main.py"⟩]
    now := ⟨2026, 10, 12, 9, 30, 5⟩
    cwd := "/home/u"
    argv := ["main.py"]
    gitFacts := fun _ => none
    hashOf := fun _ => some "abc123"
    staticCache := [("python", "3.12.0")]
    home := "/root"
    platformWin := false
    copyfileOk := fun _ => true
    replaceOk := fun _ => true
    zipOpenOk := true
    zipWriteOk := fun _ => true
    fileSize := fun _ => some 10
    modules := [⟨some "/home/u/util.py"⟩, ⟨some "/usr/lib/python3/os.py"⟩, ⟨none⟩]
    isStdOrSite := fun s => strStarts s "/usr/lib/python3"
    relpath := fun _ p => p }

def cfgW : Cfg :=
  { writeMetadata := true
    snapshotScript := false
    snapshotPy := true
    localImportsSnapshot := false
    localImportsRoots := none
    localImportsMaxFiles := 500
    localImportsMaxBytes := 50000000
    archive := true
    archiveOnly := false
    archiveDir := some "/arch"
    hideSidecars := true }

def wW : World :=
  { fs := [("/home/u/main.py", FileData.text "print(1)")]
    hidden := []
    skipLogging := false
    trace := [] }

def stOn : OpenState := { openPtr := OpenFn.loggingHook, logActive := true }

def aW : OpenArgs :=
  { file := "/home/u/out.txt", mode := "w", buffering := -1, encoding := some "utf-8",
    errors := none, newline := none, closefd := true, opener := false }

/-! ### C3: the replacement open -/

/-- C3: with auto-logging active, the replacement open propagates the original
open's failure unchanged; on success it returns exactly the handle the
original open produced for the identical arguments, records the write
(observable: one trace event) precisely when the mode contains `w`, `a` or
`x` and the library is not mid-snapshot (`_skip_logging`), and leaves the
world untouched otherwise — in particular reads trigger no recording. -/
theorem loggingOpen_spec (env : Env) (cfg : Cfg) (st : OpenState) (w : World) (a : OpenArgs)
    (hact : st.logActive = true) :
    (∀ w', originalOpen w a = .error w' → loggingOpen env cfg st w a = .error w') ∧
    (∀ fh w1, originalOpen w a = .ok (fh, w1) →
      fh = ⟨a⟩ ∧
      loggingOpen env cfg st w a
        = .ok (fh,
            if (!w1.skipLogging && modeTriggers a.mode) = true then
              recordWrite env cfg w1 a.file (toParams a)
            else w1) ∧
      (recordWrite env cfg w1 a.file (toParams a)).trace
        = w1.trace ++ [(a.file, toParams a)]) := by
  constructor
  · intro w' h
    simp [loggingOpen, h]
  · intro fh w1 h
    refine ⟨originalOpen_handle w a fh w1 h, ?_,
      recordWrite_trace env cfg w1 a.file (toParams a)⟩
    simp only [loggingOpen, h, hact]
    simp only [Bool.true_and]
    split <;> simp_all

/-- C3 witness at concrete inputs. -/
theorem loggingOpen_spec_witness :
    (∀ w', originalOpen wW aW = .error w' → loggingOpen envW cfgW stOn wW aW = .error w') ∧
    (∀ fh w1, originalOpen wW aW = .ok (fh, w1) →
      fh = ⟨aW⟩ ∧
      loggingOpen envW cfgW stOn wW aW
        = .ok (fh,
            if (!w1.skipLogging && modeTriggers aW.mode) = true then
              recordWrite envW cfgW w1 aW.file (toParams aW)
            else w1) ∧
      (recordWrite envW cfgW w1 aW.file (toParams aW)).trace
        = w1.trace ++ [(aW.file, toParams aW)]) :=
  loggingOpen_spec envW cfgW stOn wW aW rfl

/-! ### C10: no recursive tracking of snapshot writes -/

/-- C10: `_write_script_snapshots` always leaves `_skip_logging` cleared
(also when the copy raised), and any open performed while `_skip_logging` is
set records nothing: the trace after a successful `_logging_open` in that
state is unchanged, so the snapshot copy cannot trigger a second recording. -/
theorem snapshot_no_recursive_tracking (env : Env) (cfg : Cfg) (w : World)
    (tb sp : String) (st : OpenState) (a : OpenArgs) :
    (writeScriptSnapshots env cfg w tb sp).skipLogging = false ∧
    (∀ fh w2, loggingOpen env cfg st { w with skipLogging := true } a = .ok (fh, w2) →
      w2.trace = w.trace) := by
  refine ⟨(writeSnapshots_parts env cfg w tb sp).2, ?_⟩
  intro fh w2 h
  unfold loggingOpen at h
  cases horig : originalOpen { w with skipLogging := true } a with
  | error w' => rw [horig] at h; exact absurd h (by simp)
  | ok p =>
    obtain ⟨fh', w1⟩ := p
    have hparts := originalOpen_parts { w with skipLogging := true } a fh' w1 horig
    have hskip : w1.skipLogging = true := hparts.1
    rw [horig] at h
    simp [hskip] at h
    rw [← h.2, hparts.2.1]

/-! ### Archiver lemmas -/

/-- Total size of a dependency list, reading each file's size as the build
loop does. -/
def depsSize (env : Env) (l : List String) : Nat :=
  (l.map (fun p => (env.fileSize p).getD 0)).sum

theorem dedupGo_nodup (seen : List String) (l : List String) :
    (dedupGo seen l).Nodup ∧ ∀ x ∈ dedupGo seen l, x ∉ seen ∧ x ∈ l := by
  induction l generalizing seen with
  | nil => simp [dedupGo]
  | cons p rest ih =>
    by_cases hp : p ∈ seen
    · simp only [dedupGo, if_pos hp]
      refine ⟨(ih seen).1, ?_⟩
      intro x hx
      exact ⟨((ih seen).2 x hx).1, List.mem_cons_of_mem _ ((ih seen).2 x hx).2⟩
    · simp only [dedupGo, if_neg hp]
      constructor
      · refine List.nodup_cons.mpr ⟨?_, (ih (p :: seen)).1⟩
        intro hmem
        exact ((ih (p :: seen)).2 p hmem).1 (List.mem_cons_self p seen)
      · intro x hx
        rcases List.mem_cons.mp hx with rfl | hx'
        · exact ⟨hp, List.mem_cons_self x rest⟩
        · have hall := (ih (p :: seen)).2 x hx'
          exact ⟨fun hs => hall.1 (List.mem_cons_of_mem _ hs), List.mem_cons_of_mem _ hall.2⟩

theorem selectLocalImports_mem (env : Env) (roots : Option (List String)) (p : String)
    (hp : p ∈ selectLocalImports env roots) :
    (∃ m ∈ env.modules, ∃ f, m.file = some f ∧ strEnds f ".py" = true ∧ p = normP env f) ∧
    env.isStdOrSite p = false ∧
    (effectiveRoots env roots ≠ [] →
      (effectiveRoots env roots).any (fun r => strStarts p (r ++ "/") || p == r) = true) := by
  have hmem : p ∈ env.modules.filterMap (selectOne env (effectiveRoots env roots)) :=
    ((dedupGo_nodup [] _).2 p hp).2
  rw [List.mem_filterMap] at hmem
  obtain ⟨m, hm, hsel⟩ := hmem
  unfold selectOne at hsel
  repeat' split at hsel
  all_goals simp_all
  · rename_i f hf h1 h3
    obtain ⟨hstd, hpf⟩ := hsel
    exact ⟨⟨m, hm, f, hf, h1.2, hpf.symm⟩, hpf ▸ hstd⟩
  · rename_i f hf h1 hne
    obtain ⟨hstd, hany, hpf⟩ := hsel
    exact ⟨⟨m, hm, f, hf, h1.2, hpf.symm⟩, hpf ▸ hstd, hpf ▸ hany⟩

theorem addDeps_cons_none (env : Env) (mf mb : Nat) (p : String) (rest : List String)
    (t c : Nat) (hsz : env.fileSize p = none) :
    addDeps env mf mb (p :: rest) t c = addDeps env mf mb rest t c := by
  simp only [addDeps]
  rw [hsz]

theorem addDeps_cons_some (env : Env) (mf mb : Nat) (p : String) (rest : List String)
    (t c sz : Nat) (hsz : env.fileSize p = some sz) :
    addDeps env mf mb (p :: rest) t c
      = if mf ≤ c ∨ mb < t + sz then []
        else if env.zipWriteOk p then p :: addDeps env mf mb rest (t + sz) (c + 1)
        else addDeps env mf mb rest t c := by
  simp only [addDeps]
  rw [hsz]

theorem addDeps_sublist (env : Env) (mf mb : Nat) :
    ∀ (l : List String) (total count : Nat),
      List.Sublist (addDeps env mf mb l total count) l := by
  intro l
  induction l with
  | nil => intro t c; simp [addDeps]
  | cons p rest ih =>
    intro t c
    cases hsz : env.fileSize p with
    | none =>
      rw [addDeps_cons_none env mf mb p rest t c hsz]
      exact (ih t c).cons p
    | some sz =>
      rw [addDeps_cons_some env mf mb p rest t c sz hsz]
      by_cases hbr : mf ≤ c ∨ mb < t + sz
      · rw [if_pos hbr]; exact List.nil_sublist _
      · rw [if_neg hbr]
        by_cases hw : env.zipWriteOk p = true
        · rw [if_pos hw]; exact (ih (t + sz) (c + 1)).cons₂ p
        · rw [if_neg hw]; exact (ih t c).cons p

theorem addDeps_count (env : Env) (mf mb : Nat) :
    ∀ (l : List String) (total count : Nat),
      count + (addDeps env mf mb l total count).length ≤ max mf count := by
  intro l
  induction l with
  | nil => intro t c; simp [addDeps, Nat.le_max_right]
  | cons p rest ih =>
    intro t c
    cases hsz : env.fileSize p with
    | none => rw [addDeps_cons_none env mf mb p rest t c hsz]; exact ih t c
    | some sz =>
      rw [addDeps_cons_some env mf mb p rest t c sz hsz]
      by_cases hbr : mf ≤ c ∨ mb < t + sz
      · rw [if_pos hbr]; simp
      · rw [if_neg hbr]
        have hc : c + 1 ≤ mf := by omega
        by_cases hw : env.zipWriteOk p = true
        · rw [if_pos hw]
          have hrec := ih (t + sz) (c + 1)
          have hm1 : max mf (c + 1) = mf := Nat.max_eq_left hc
          have hm2 : max mf c = mf := Nat.max_eq_left (by omega)
          rw [hm1] at hrec
          rw [hm2]
          simp only [List.length_cons]
          omega
        · rw [if_neg hw]; exact ih t c

theorem addDeps_size (env : Env) (mf mb : Nat) :
    ∀ (l : List String) (total count : Nat),
      total + depsSize env (addDeps env mf mb l total count) ≤ max mb total := by
  intro l
  induction l with
  | nil => intro t c; simp [addDeps, depsSize, Nat.le_max_right]
  | cons p rest ih =>
    intro t c
    cases hsz : env.fileSize p with
    | none => rw [addDeps_cons_none env mf mb p rest t c hsz]; exact ih t c
    | some sz =>
      rw [addDeps_cons_some env mf mb p rest t c sz hsz]
      by_cases hbr : mf ≤ c ∨ mb < t + sz
      · rw [if_pos hbr]; simp [depsSize]
      · rw [if_neg hbr]
        have hsz' : t + sz ≤ mb := by omega
        by_cases hw : env.zipWriteOk p = true
        · rw [if_pos hw]
          have hrec := ih (t + sz) (c + 1)
          have hmax : max mb (t + sz) = mb := Nat.max_eq_left hsz'
          rw [hmax] at hrec
          have hstep : t + depsSize env (p :: addDeps env mf mb rest (t + sz) (c + 1)) ≤ mb := by
            simp only [depsSize, List.map_cons, List.sum_cons, hsz, Option.getD_some]
            simp only [depsSize] at hrec
            omega
          exact le_trans hstep (Nat.le_max_left mb t)
        · rw [if_neg hw]; exact ih t c

/-! ### C5: bounded dependency selection -/

/-- C5: every dependency file an archive build adds comes from the
de-duplicated selection over `sys.modules` (a `.py` module file outside the
standard-library/site-packages paths, and under one of the roots when roots
are given); the added list is duplicate-free, holds at most `max_files`
entries, its sizes sum to at most `max_bytes`, and it is exactly what lands
in the built archive's `deps` members. -/
theorem archive_deps_bounded (env : Env) (roots : Option (List String)) (mf mb : Nat) :
    (∀ p ∈ depFiles env roots mf mb, p ∈ selectLocalImports env roots) ∧
    (depFiles env roots mf mb).Nodup ∧
    (depFiles env roots mf mb).length ≤ mf ∧
    depsSize env (depFiles env roots mf mb) ≤ mb ∧
    (∀ p ∈ selectLocalImports env roots,
      (∃ m ∈ env.modules, ∃ f, m.file = some f ∧ strEnds f ".py" = true ∧ p = normP env f) ∧
      env.isStdOrSite p = false ∧
      (effectiveRoots env roots ≠ [] →
        (effectiveRoots env roots).any (fun r => strStarts p (r ++ "/") || p == r) = true)) ∧
    (∀ (fs : Fs) (out ad : String) (m : Option Metadata) (t : Stamp) (fs' : Fs) (d : String),
      buildArchiveForOutput env fs out ad roots mf mb m t = .ok (fs', some d) →
      ∃ b : ArchiveBundle, fsLookup fs' d = some (FileData.archive b) ∧
        b.deps.map Prod.snd = depFiles env roots mf mb) := by
  have hsel : List.Sublist (depFiles env roots mf mb) (selectLocalImports env roots) := by
    simp only [depFiles]
    split
    · exact List.nil_sublist _
    · exact addDeps_sublist env mf mb (selectLocalImports env roots) 0 0
  refine ⟨fun p hp => hsel.subset hp, (dedupGo_nodup [] _).1.sublist hsel, ?_, ?_,
    fun p hp => selectLocalImports_mem env roots p hp, ?_⟩
  · simp only [depFiles]
    split
    · simp
    · have := addDeps_count env mf mb (selectLocalImports env roots) 0 0
      simpa [Nat.max_zero] using this
  · simp only [depFiles]
    split
    · simp [depsSize]
    · have := addDeps_size env mf mb (selectLocalImports env roots) 0 0
      simpa [Nat.max_zero] using this
  · intro fs out ad m t fs' d h
    unfold buildArchiveForOutput at h
    by_cases hex : (!(fsExists fs out)) = true
    · rw [if_pos hex] at h
      exact absurd h (by simp)
    · rw [if_neg hex] at h
      by_cases hz : (!env.zipOpenOk) = true
      · rw [if_pos hz] at h
        exact absurd h (by simp)
      · rw [if_neg hz] at h
        simp only [Except.ok.injEq, Prod.mk.injEq, Option.some.injEq] at h
        obtain ⟨hfs, hd⟩ := h
        subst hfs
        subst hd
        refine ⟨_, fsLookup_write_self _ _ _, ?_⟩
        rw [List.map_map]
        exact List.map_id _

/-! ### C6: archive destination path -/

/-- C6: when the output file exists and the zip can be opened, the archive is
created (and `build_archive_for_output` returns its path) at
`<archive_root>/<output_name>/<date>/run-<timestamp>/<output_name>.ws.zip`,
with `<date>` the current `YYYY-MM-DD` date and `<timestamp>` the current
`YYYYMMDD-HHMMSS` date-time. -/
theorem buildArchive_dest_path (env : Env) (fs : Fs) (out ad : String)
    (roots : Option (List String)) (mf mb : Nat) (m : Option Metadata) (t : Stamp)
    (hex : fsExists fs out = true) (hz : env.zipOpenOk = true) :
    ∃ b : ArchiveBundle,
      buildArchiveForOutput env fs out ad roots mf mb m t
        = .ok (fsWrite fs (archiveDest ad out t) (FileData.archive b),
               some (archiveDest ad out t)) ∧
      fsLookup (fsWrite fs (archiveDest ad out t) (FileData.archive b)) (archiveDest ad out t)
        = some (FileData.archive b) ∧
      archiveDest ad out t
        = ad ++ "/" ++ baseName out ++ "/" ++ dateStr t ++ "/run-" ++ timeCompact t ++ "/" ++
          baseName out ++ ".ws.zip" := by
  have h1 : (!(fsExists fs out)) = false := by rw [hex]; rfl
  have h2 : (!env.zipOpenOk) = false := by rw [hz]; rfl
  simp only [buildArchiveForOutput, h1, h2, Bool.false_eq_true, if_false]
  exact ⟨_, rfl, fsLookup_write_self _ _ _, rfl⟩

/-- C6 witness at concrete inputs. -/
theorem buildArchive_dest_path_witness :
    ∃ b : ArchiveBundle,
      buildArchiveForOutput envW [("/home/u/out.txt", FileData.text "x")] "/home/u/out.txt"
          "/arch" none 500 50000000 none ⟨2026, 10, 12, 9, 30, 5⟩
        = .ok (fsWrite [("/home/u/out.txt", FileData.text "x")]
                 (archiveDest "/arch" "/home/u/out.txt" ⟨2026, 10, 12, 9, 30, 5⟩)
                 (FileData.archive b),
               some (archiveDest "/arch" "/home/u/out.txt" ⟨2026, 10, 12, 9, 30, 5⟩)) ∧
      fsLookup (fsWrite [("/home/u/out.txt", FileData.text "x")]
                 (archiveDest "/arch" "/home/u/out.txt" ⟨2026, 10, 12, 9, 30, 5⟩)
                 (FileData.archive b))
               (archiveDest "/arch" "/home/u/out.txt" ⟨2026, 10, 12, 9, 30, 5⟩)
        = some (FileData.archive b) ∧
      archiveDest "/arch" "/home/u/out.txt" ⟨2026, 10, 12, 9, 30, 5⟩
        = "/arch" ++ "/" ++ baseName "/home/u/out.txt" ++ "/" ++
          dateStr ⟨2026, 10, 12, 9, 30, 5⟩ ++ "/run-" ++
          timeCompact ⟨2026, 10, 12, 9, 30, 5⟩ ++ "/" ++
          baseName "/home/u/out.txt" ++ ".ws.zip" :=
  buildArchive_dest_path envW [("/home/u/out.txt", FileData.text "x")] "/home/u/out.txt"
    "/arch" none 500 50000000 none ⟨2026, 10, 12, 9, 30, 5⟩ (by decide) (by decide)

/-! ### Filesystem preservation through the pipeline -/

theorem fsLookup_write_ne' {p q : String} (h : p ≠ q) (fs : Fs) (v : FileData) :
    fsLookup (fsWrite fs p v) q = fsLookup fs q := fsLookup_write_ne fs p q v h

theorem fsLookup_erase_ne' {p q : String} (h : p ≠ q) (fs : Fs) :
    fsLookup (fsErase fs p) q = fsLookup fs q := fsLookup_erase_ne fs p q h

theorem atomicCopy_fs_pres (env : Env) (w : World) (dst src : String) (hide : Bool)
    (q : String) (h1 : dst ≠ q) (h2 : dst ++ ".tmp" ≠ q) :
    fsLookup (exWorld (atomicCopyScript env w dst src hide)).fs q = fsLookup w.fs q := by
  unfold atomicCopyScript maybeSetHidden
  repeat' split
  all_goals
    cases hsrc : fsLookup w.fs src <;>
      simp only [hsrc, exWorld] <;> (repeat' split) <;>
      simp [fsLookup_write_ne' h1, fsLookup_write_ne' h2, fsLookup_erase_ne' h2]

theorem writeSnapshots_fs_pres (env : Env) (cfg : Cfg) (w : World) (tb sp : String)
    (q : String) (h1 : tb ++ ".script.py" ≠ q) (h2 : (tb ++ ".script.py") ++ ".tmp" ≠ q) :
    fsLookup (writeScriptSnapshots env cfg w tb sp).fs q = fsLookup w.fs q := by
  have hac := atomicCopy_fs_pres env { w with skipLogging := true } (tb ++ ".script.py") sp
      cfg.hideSidecars q h1 h2
  unfold writeScriptSnapshots
  split
  · cases hres : atomicCopyScript env { w with skipLogging := true } (tb ++ ".script.py") sp
        cfg.hideSidecars with
    | ok w' =>
      rw [hres] at hac
      simp only [hres]
      simpa [exWorld] using hac
    | error w' =>
      rw [hres] at hac
      simp only [hres]
      simpa [exWorld] using hac
  · rfl

/-- The filesystem carried by a `build_archive_for_output` outcome. -/
def exFs : Except Fs (Fs × Option String) → Fs
  | .ok (fs, _) => fs
  | .error fs => fs

theorem buildArchive_fs_pres (env : Env) (fs : Fs) (out ad : String)
    (roots : Option (List String)) (mf mb : Nat) (m : Option Metadata) (t : Stamp)
    (q : String) (hq : archiveDest ad out t ≠ q) :
    fsLookup (exFs (buildArchiveForOutput env fs out ad roots mf mb m t)) q
      = fsLookup fs q := by
  unfold buildArchiveForOutput
  split
  · rfl
  · split
    · rfl
    · simp [exFs, fsLookup_write_ne' hq]

theorem autoArchive_fs_pres (env : Env) (cfg : Cfg) (w : World) (tb : String)
    (m : Option Metadata) (cs : Option String) (q : String)
    (hq : archiveDest (resolveArchiveDir env cfg) tb env.now ≠ q) :
    fsLookup (autoArchive env cfg w tb m cs).fs q = fsLookup w.fs q := by
  have hb := buildArchive_fs_pres env w.fs tb (resolveArchiveDir env cfg)
      (some (autoArchiveRoots cfg cs)) 500 50000000 m env.now q hq
  unfold autoArchive
  split
  · rfl
  · cases hres : buildArchiveForOutput env w.fs tb (resolveArchiveDir env cfg)
        (some (autoArchiveRoots cfg cs)) 500 50000000 m env.now with
    | ok pr =>
      obtain ⟨fs', s⟩ := pr
      rw [hres] at hb
      simp only [hres]
      simpa [exFs] using hb
    | error fs' =>
      rw [hres] at hb
      simp only [hres]
      simpa [exFs] using hb

/-! ### C1: no metadata sidecar is written -/

/-- C1 (amended): neither `save_output` nor the interception path
(`_record_write`) writes a metadata sidecar next to the output — the
descriptor, when enabled, is only handed to the archiver — yet `save_output`
still returns `output_path + ".metadata.json"`.  The sidecar path's content
is untouched for every environment, configuration and initial world. -/
theorem saveOutput_no_metadata_sidecar (env : Env) (cfg : Cfg) (w : World)
    (data p : String) (wr : World) (params : OpenParams) :
    fsLookup ((saveOutput env cfg w data p).1).fs (p ++ ".metadata.json")
      = fsLookup w.fs (p ++ ".metadata.json") ∧
    (saveOutput env cfg w data p).2 = p ++ ".metadata.json" ∧
    fsLookup (recordWrite env cfg wr p params).fs (p ++ ".metadata.json")
      = fsLookup wr.fs (p ++ ".metadata.json") := by
  have hq1 : ∀ tb : String, tb ++ ".script.py" ≠ p ++ ".metadata.json" := fun tb =>
    append_tail_ne ".script.py" ".metadata.json" (by decide) (by decide) tb p
  have hq2 : ∀ x : String, x ++ ".tmp" ≠ p ++ ".metadata.json" := fun x =>
    append_tail_ne ".tmp" ".metadata.json" (by decide) (by decide) x p
  have hq3 : ∀ (ad tb : String) (t : Stamp), archiveDest ad tb t ≠ p ++ ".metadata.json" :=
    fun ad tb t =>
      append_tail_ne ".ws.zip" ".metadata.json" (by decide) (by decide)
        (ad ++ "/" ++ baseName tb ++ "/" ++ dateStr t ++ "/run-" ++ timeCompact t ++ "/" ++
          baseName tb) p
  have hq4 : p ≠ p ++ ".metadata.json" := self_ne_append p ".metadata.json" (by decide)
  refine ⟨?_, rfl, ?_⟩
  · simp only [saveOutput]
    cases hcs : findCallingScript env.abspath env.basePref env.trackerFile env.stack with
    | none =>
      simp only [hcs]
      rw [autoArchive_fs_pres _ _ _ _ _ _ _ (hq3 _ _ _)]
      exact fsLookup_write_ne' hq4 w.fs _
    | some cs =>
      simp only [hcs]
      split
      · rw [autoArchive_fs_pres _ _ _ _ _ _ _ (hq3 _ _ _),
          writeSnapshots_fs_pres _ _ _ _ _ _ (hq1 p) (hq2 _)]
        exact fsLookup_write_ne' hq4 w.fs _
      · rw [autoArchive_fs_pres _ _ _ _ _ _ _ (hq3 _ _ _)]
        exact fsLookup_write_ne' hq4 w.fs _
  · simp only [recordWrite]
    cases hcs : findCallingScript env.abspath env.basePref env.trackerFile env.stack with
    | none =>
      simp only [hcs]
      rw [autoArchive_fs_pres _ _ _ _ _ _ _ (hq3 _ _ _)]
    | some cs =>
      simp only [hcs]
      split
      · rw [autoArchive_fs_pres _ _ _ _ _ _ _ (hq3 _ _ _),
          writeSnapshots_fs_pres _ _ _ _ _ _ (hq1 p) (hq2 _)]
      · rw [autoArchive_fs_pres _ _ _ _ _ _ _ (hq3 _ _ _)]

/-- C1 counterexample: a concrete run with metadata enabled; `save_output`
returns the sidecar path, but no file exists there afterwards. -/
theorem saveOutput_metadata_sidecar_cex :
    cfgW.writeMetadata = true ∧
    (saveOutput envW cfgW wW "hello" "/home/u/out.txt").2 = "/home/u/out.txt.metadata.json" ∧
    fsLookup ((saveOutput envW cfgW wW "hello" "/home/u/out.txt").1).fs
        "/home/u/out.txt.metadata.json" = none := by
  refine ⟨rfl, by decide, by decide⟩

/-! ### C4: provenance failures are swallowed -/

def exceptIsOk {ε α : Type} : Except ε α → Bool
  | .ok _ => true
  | .error _ => false

theorem atomicCopy_error_of (env : Env) (w : World) (dst src : String) (hide : Bool)
    (hc : env.copyfileOk dst = false) (hd : fsExists w.fs dst = false) :
    atomicCopyScript env w dst src hide = .error w := by
  unfold atomicCopyScript
  have hcond : (env.platformWin && fsExists w.fs dst) = false := by simp [hd]
  rw [hcond]
  simp only [Bool.false_eq_true, if_false]
  cases hsrc : fsLookup w.fs src <;> simp [hsrc, hc]

theorem writeSnapshots_fs_eq_of_copyfail (env : Env) (cfg : Cfg) (w : World) (tb sp : String)
    (hc : env.copyfileOk (tb ++ ".script.py") = false)
    (hd : fsExists w.fs (tb ++ ".script.py") = false) :
    (writeScriptSnapshots env cfg w tb sp).fs = w.fs := by
  simp only [writeScriptSnapshots]
  split
  · rw [atomicCopy_error_of env { w with skipLogging := true } (tb ++ ".script.py") sp
      cfg.hideSidecars hc hd]
  · rfl

theorem autoArchive_fs_eq_of_zipfail (env : Env) (cfg : Cfg) (w : World) (tb : String)
    (m : Option Metadata) (cs : Option String) (hz : env.zipOpenOk = false) :
    (autoArchive env cfg w tb m cs).fs = w.fs := by
  unfold autoArchive
  split
  · rfl
  · unfold buildArchiveForOutput
    by_cases hex : (!(fsExists w.fs tb)) = true
    · rw [if_pos hex]
    · rw [if_neg hex]
      have hzt : (!env.zipOpenOk) = true := by simp [hz]
      rw [if_pos hzt]

/-- C4: with the copy primitive and the zip-open primitive failing, the
snapshot copy and the archive build both raise (their `Except` outcomes are
errors), yet `_record_write` still returns normally and leaves the
filesystem exactly as it was: no exception reaches the caller, and no
sidecar, snapshot or archive artifact is guaranteed to exist afterwards. -/
theorem provenance_failures_swallowed (env : Env) (cfg : Cfg) (w : World) (p : String)
    (params : OpenParams)
    (hc : env.copyfileOk (p ++ ".script.py") = false)
    (hz : env.zipOpenOk = false)
    (hs : fsExists w.fs (p ++ ".script.py") = false) :
    (recordWrite env cfg w p params).fs = w.fs ∧
    (∀ (w1 : World) (sp : String), fsExists w1.fs (p ++ ".script.py") = false →
      exceptIsOk (atomicCopyScript env w1 (p ++ ".script.py") sp cfg.hideSidecars) = false) ∧
    (fsExists w.fs p = true →
      ∀ (roots : Option (List String)) (m : Option Metadata) (ad : String),
        exceptIsOk (buildArchiveForOutput env w.fs p ad roots 500 50000000 m env.now)
          = false) := by
  refine ⟨?_, ?_, ?_⟩
  · simp only [recordWrite]
    cases hcs : findCallingScript env.abspath env.basePref env.trackerFile env.stack with
    | none =>
      simp only [hcs]
      rw [autoArchive_fs_eq_of_zipfail _ _ _ _ _ _ hz]
    | some cs =>
      simp only [hcs]
      split
      · rw [autoArchive_fs_eq_of_zipfail _ _ _ _ _ _ hz,
          writeSnapshots_fs_eq_of_copyfail env cfg
            { w with trace := w.trace ++ [(p, params)] } p cs hc hs]
      · rw [autoArchive_fs_eq_of_zipfail _ _ _ _ _ _ hz]
  · intro w1 sp hd1
    rw [atomicCopy_error_of env w1 (p ++ ".script.py") sp cfg.hideSidecars hc hd1]
    rfl
  · intro hex roots m ad
    unfold buildArchiveForOutput
    have hext : (!(fsExists w.fs p)) = false := by simp [hex]
    rw [hext]
    simp only [Bool.false_eq_true, if_false]
    have hzt : (!env.zipOpenOk) = true := by simp [hz]
    rw [if_pos hzt]
    rfl

/-- All-failure variant of the sample environment. -/
def envFail : Env := { envW with copyfileOk := fun _ => false, zipOpenOk := false }

def paramsW : OpenParams := toParams aW

/-- C4 witness at concrete inputs. -/
theorem provenance_failures_swallowed_witness :
    (recordWrite envFail cfgW wW "/home/u/out.txt" paramsW).fs = wW.fs ∧
    (∀ (w1 : World) (sp : String), fsExists w1.fs ("/home/u/out.txt" ++ ".script.py") = false →
      exceptIsOk (atomicCopyScript envFail w1 ("/home/u/out.txt" ++ ".script.py") sp
        cfgW.hideSidecars) = false) ∧
    (fsExists wW.fs "/home/u/out.txt" = true →
      ∀ (roots : Option (List String)) (m : Option Metadata) (ad : String),
        exceptIsOk (buildArchiveForOutput envFail wW.fs "/home/u/out.txt" ad roots 500
          50000000 m envFail.now) = false) :=
  provenance_failures_swallowed envFail cfgW wW "/home/u/out.txt" paramsW
    (by decide) (by decide) (by decide)

/-! ### C7: script snapshot sidecar -/

theorem writeSnapshots_eq_exWorld (env : Env) (cfg : Cfg) (w : World) (tb sp : String)
    (hpy : cfg.snapshotPy = true) :
    writeScriptSnapshots env cfg w tb sp
      = { exWorld (atomicCopyScript env { w with skipLogging := true } (tb ++ ".script.py") sp
            cfg.hideSidecars) with skipLogging := false } := by
  simp only [writeScriptSnapshots, hpy, if_true]
  cases hres : atomicCopyScript env { w with skipLogging := true } (tb ++ ".script.py") sp
      cfg.hideSidecars <;> simp [hres, exWorld]

theorem atomicCopy_exWorld_props (env : Env) (w : World) (dst src : String) (c : FileData)
    (hide : Bool) (hsrc : fsLookup w.fs src = some c) (hcf : env.copyfileOk dst = true)
    (hrp : env.replaceOk dst = true) :
    fsLookup (exWorld (atomicCopyScript env w dst src hide)).fs dst = some c ∧
    (hide = true → env.platformWin = true →
      dst ∈ (exWorld (atomicCopyScript env w dst src hide)).hidden) ∧
    (env.platformWin = false →
      (exWorld (atomicCopyScript env w dst src hide)).hidden = w.hidden) := by
  have hfsifeq : (if (env.platformWin && fsExists w.fs dst) = true then
      { w with hidden := w.hidden.erase dst } else w).fs = w.fs := by
    split <;> rfl
  simp only [atomicCopyScript, hfsifeq, hsrc, hcf, hrp, Bool.not_true, Bool.false_eq_true,
    if_false, exWorld]
  refine ⟨?_, ?_, ?_⟩
  · rw [(maybeSetHidden_parts env _ dst hide).1]
    exact fsLookup_write_self _ _ _
  · intro hh hw
    have hex3 : fsExists (fsWrite (fsErase (fsWrite w.fs (dst ++ ".tmp") c) (dst ++ ".tmp"))
        dst c) dst = true := by simp [fsExists, fsLookup_write_self]
    simp [maybeSetHidden, hh, hw, hex3]
  · intro hpl
    have hwin' : (env.platformWin && fsExists w.fs dst) = false := by simp [hpl]
    simp only [hwin', Bool.false_eq_true, if_false]
    unfold maybeSetHidden
    split
    · rfl
    · split
      · rename_i hcond
        exact absurd hcond (by simp [hpl])
      · rfl

/-- C7 (amended): for a tracked write whose calling script is identified and
readable, with Python snapshotting enabled and the copy primitives
succeeding, the script's content is copied byte-for-byte to
`output + ".script.py"`; when hiding is enabled the sidecar is marked hidden
**only on Windows** (`attrib +H`) — on any other OS the hidden state is left
untouched. -/
theorem recordWrite_snapshot (env : Env) (cfg : Cfg) (w : World) (p : String)
    (params : OpenParams) (cs : String) (c : FileData)
    (hcs : findCallingScript env.abspath env.basePref env.trackerFile env.stack = some cs)
    (hsrc : fsLookup w.fs cs = some c)
    (hpy : cfg.snapshotPy = true)
    (hcf : env.copyfileOk (p ++ ".script.py") = true)
    (hrp : env.replaceOk (p ++ ".script.py") = true) :
    fsLookup (recordWrite env cfg w p params).fs (p ++ ".script.py") = some c ∧
    (cfg.hideSidecars = true → env.platformWin = true →
      (p ++ ".script.py") ∈ (recordWrite env cfg w p params).hidden) ∧
    (env.platformWin = false → (recordWrite env cfg w p params).hidden = w.hidden) := by
  have hdd : archiveDest (resolveArchiveDir env cfg) p env.now ≠ p ++ ".script.py" :=
    append_tail_ne ".ws.zip" ".script.py" (by decide) (by decide)
      (resolveArchiveDir env cfg ++ "/" ++ baseName p ++ "/" ++ dateStr env.now ++ "/run-" ++
        timeCompact env.now ++ "/" ++ baseName p) p
  have hex : fsExists ({ w with trace := w.trace ++ [(p, params)] } : World).fs cs = true := by
    simp [fsExists, hsrc]
  simp only [recordWrite, hcs]
  rw [if_pos hex]
  rw [writeSnapshots_eq_exWorld env cfg { w with trace := w.trace ++ [(p, params)] } p cs hpy]
  have hprops := atomicCopy_exWorld_props env
    { ({ w with trace := w.trace ++ [(p, params)] } : World) with skipLogging := true }
    (p ++ ".script.py") cs c cfg.hideSidecars hsrc hcf hrp
  refine ⟨?_, ?_, ?_⟩
  · rw [autoArchive_fs_pres _ _ _ _ _ _ _ hdd]
    exact hprops.1
  · intro hh hw
    rw [(autoArchive_parts _ _ _ _ _ _).2.1]
    exact hprops.2.1 hh hw
  · intro hpl
    rw [(autoArchive_parts _ _ _ _ _ _).2.1]
    exact hprops.2.2 hpl

/-- C7 counterexample: a concrete non-Windows run with hiding enabled, the
calling script identified and readable, and the copy succeeding: the
snapshot sidecar exists, yet nothing is marked hidden. -/
theorem recordWrite_snapshot_hidden_cex :
    cfgW.snapshotPy = true ∧ cfgW.hideSidecars = true ∧ envW.platformWin = false ∧
    findCallingScript envW.abspath envW.basePref envW.trackerFile envW.stack
      = some "/home/u/main.py" ∧
    fsExists wW.fs "/home/u/main.py" = true ∧
    fsLookup (recordWrite envW cfgW wW "/home/u/out2.txt" paramsW).fs
        "/home/u/out2.txt.script.py" = some (FileData.text "print(1)") ∧
    (recordWrite envW cfgW wW "/home/u/out2.txt" paramsW).hidden = [] := by
  refine ⟨rfl, rfl, rfl, by decide, by decide, by decide, by decide⟩

/-- C7 witness at concrete inputs. -/
theorem recordWrite_snapshot_witness :
    fsLookup (recordWrite envW cfgW wW "/home/u/out.txt" paramsW).fs
        ("/home/u/out.txt" ++ ".script.py") = some (FileData.text "print(1)") ∧
    (cfgW.hideSidecars = true → envW.platformWin = true →
      ("/home/u/out.txt" ++ ".script.py")
        ∈ (recordWrite envW cfgW wW "/home/u/out.txt" paramsW).hidden) ∧
    (envW.platformWin = false →
      (recordWrite envW cfgW wW "/home/u/out.txt" paramsW).hidden = wW.hidden) :=
  recordWrite_snapshot envW cfgW wW "/home/u/out.txt" paramsW "/home/u/main.py"
    (FileData.text "print(1)") (by decide) (by decide) (by decide) (by decide) (by decide)

/-! ### C8: the manual save path refines the interception path -/

/-- Erase the open-call parameters from a metadata descriptor (the one field
only an intercepted open supplies). -/
def stripMeta (m : Metadata) : Metadata := { m with openParams := none }

def stripFD : FileData → FileData
  | .text s => .text s
  | .archive b => .archive { b with meta := b.meta.map stripMeta }

/-- A filesystem with every archive's open-call parameters erased. -/
def stripFs (fs : Fs) : Fs := fs.map (fun e => (e.1, stripFD e.2))

theorem autoArchive_eq_exFs (env : Env) (cfg : Cfg) (w : World) (tb : String)
    (m : Option Metadata) (cs : Option String) :
    autoArchive env cfg w tb m cs
      = if cfg.archive then
          { w with fs := exFs (buildArchiveForOutput env w.fs tb (resolveArchiveDir env cfg)
              (some (autoArchiveRoots cfg cs)) 500 50000000 m env.now) }
        else w := by
  unfold autoArchive
  by_cases ha : cfg.archive = true
  · have hna : (!cfg.archive) = false := by simp [ha]
    rw [hna]
    simp only [Bool.false_eq_true, if_false, ha, if_true]
    cases hres : buildArchiveForOutput env w.fs tb (resolveArchiveDir env cfg)
        (some (autoArchiveRoots cfg cs)) 500 50000000 m env.now with
    | ok pr => obtain ⟨fs', s⟩ := pr; simp [hres, exFs]
    | error fs' => simp [hres, exFs]
  · have hna : (!cfg.archive) = true := by simp [Bool.not_eq_true', ← Bool.not_eq_true, ha]
    rw [hna]
    simp [ha]

theorem buildArchive_strip (env : Env) (fs : Fs) (out ad : String)
    (roots : Option (List String)) (mf mb : Nat) (t : Stamp) (m1 m2 : Option Metadata)
    (hm : m1.map stripMeta = m2.map stripMeta) :
    stripFs (exFs (buildArchiveForOutput env fs out ad roots mf mb m1 t))
      = stripFs (exFs (buildArchiveForOutput env fs out ad roots mf mb m2 t)) := by
  unfold buildArchiveForOutput
  split
  · rfl
  · split
    · rfl
    · simp [exFs, stripFs, fsWrite, stripFD, hm]

theorem pipeline_obs_congr (env : Env) (cfg : Cfg) (w1 w2 : World) (tb : String)
    (m1 m2 : Option Metadata) (cs : Option String)
    (hfs : w1.fs = w2.fs) (hh : w1.hidden = w2.hidden) (hsk : w1.skipLogging = w2.skipLogging)
    (hm : m1.map stripMeta = m2.map stripMeta) :
    stripFs (autoArchive env cfg w1 tb m1 cs).fs = stripFs (autoArchive env cfg w2 tb m2 cs).fs ∧
    (autoArchive env cfg w1 tb m1 cs).hidden = (autoArchive env cfg w2 tb m2 cs).hidden ∧
    (autoArchive env cfg w1 tb m1 cs).skipLogging
      = (autoArchive env cfg w2 tb m2 cs).skipLogging := by
  rw [autoArchive_eq_exFs, autoArchive_eq_exFs]
  by_cases ha : cfg.archive = true
  · rw [if_pos ha, if_pos ha]
    refine ⟨?_, hh, hsk⟩
    show stripFs (exFs (buildArchiveForOutput env w1.fs tb (resolveArchiveDir env cfg)
        (some (autoArchiveRoots cfg cs)) 500 50000000 m1 env.now))
      = stripFs (exFs (buildArchiveForOutput env w2.fs tb (resolveArchiveDir env cfg)
        (some (autoArchiveRoots cfg cs)) 500 50000000 m2 env.now))
    rw [hfs]
    exact buildArchive_strip env w2.fs tb (resolveArchiveDir env cfg)
      (some (autoArchiveRoots cfg cs)) 500 50000000 env.now m1 m2 hm
  · rw [if_neg ha, if_neg ha]
    exact ⟨by rw [hfs], hh, hsk⟩

theorem fsExists_write_self (fs : Fs) (p : String) (v : FileData) :
    fsExists (fsWrite fs p v) p = true := by
  simp [fsExists, fsLookup_write_self]

theorem atomicCopy_obs_congr (env : Env) (dst src : String) (hide : Bool) (w1 w2 : World)
    (hfs : w1.fs = w2.fs) (hh : w1.hidden = w2.hidden) :
    (exWorld (atomicCopyScript env w1 dst src hide)).fs
      = (exWorld (atomicCopyScript env w2 dst src hide)).fs ∧
    (exWorld (atomicCopyScript env w1 dst src hide)).hidden
      = (exWorld (atomicCopyScript env w2 dst src hide)).hidden := by
  by_cases hpw : env.platformWin = true <;>
    cases hsrc : fsLookup w2.fs src <;>
      by_cases hex2 : fsExists w2.fs dst = true <;>
        by_cases hcf : env.copyfileOk dst = true <;>
          by_cases hrp : env.replaceOk dst = true <;>
            by_cases hhide : hide = true <;>
              simp [atomicCopyScript, maybeSetHidden, exWorld, hfs, hh, hpw, hex2, hsrc, hcf,
                hrp, hhide, fsExists_write_self]

theorem writeSnapshots_obs_congr (env : Env) (cfg : Cfg) (w1 w2 : World) (tb sp : String)
    (hfs : w1.fs = w2.fs) (hh : w1.hidden = w2.hidden) :
    (writeScriptSnapshots env cfg w1 tb sp).fs = (writeScriptSnapshots env cfg w2 tb sp).fs ∧
    (writeScriptSnapshots env cfg w1 tb sp).hidden
      = (writeScriptSnapshots env cfg w2 tb sp).hidden ∧
    (writeScriptSnapshots env cfg w1 tb sp).skipLogging
      = (writeScriptSnapshots env cfg w2 tb sp).skipLogging := by
  by_cases hpy : cfg.snapshotPy = true
  · rw [writeSnapshots_eq_exWorld env cfg w1 tb sp hpy,
      writeSnapshots_eq_exWorld env cfg w2 tb sp hpy]
    have hac := atomicCopy_obs_congr env (tb ++ ".script.py") sp cfg.hideSidecars
      { w1 with skipLogging := true } { w2 with skipLogging := true }
      (by simpa using hfs) (by simpa using hh)
    exact ⟨hac.1, hac.2, rfl⟩
  · have hgen : ∀ w : World, writeScriptSnapshots env cfg w tb sp
        = { w with skipLogging := false } := by
      intro w
      simp [writeScriptSnapshots, hpy]
    rw [hgen w1, hgen w2]
    exact ⟨hfs, hh, rfl⟩

/-- C8: `save_output` performs the same metadata/snapshot/archive behaviour
as the interception path `_record_write` run on the world after the data
write: the snapshot sidecar and hidden state coincide, and the filesystems
(archives included) coincide once the open-call parameters — which only an
intercepted open supplies — are erased from the metadata descriptor;
`save_output` additionally returns `output_path + ".metadata.json"`. -/
theorem saveOutput_matches_recordWrite (env : Env) (cfg : Cfg) (w : World) (data p : String)
    (params : OpenParams) :
    stripFs ((saveOutput env cfg w data p).1).fs
      = stripFs (recordWrite env cfg { w with fs := fsWrite w.fs p (FileData.text data) } p
          params).fs ∧
    ((saveOutput env cfg w data p).1).hidden
      = (recordWrite env cfg { w with fs := fsWrite w.fs p (FileData.text data) } p
          params).hidden ∧
    ((saveOutput env cfg w data p).1).skipLogging
      = (recordWrite env cfg { w with fs := fsWrite w.fs p (FileData.text data) } p
          params).skipLogging ∧
    (saveOutput env cfg w data p).2 = p ++ ".metadata.json" := by
  have hm : ∀ cs : Option String,
      (if cfg.writeMetadata then
        some { scriptPath := cs, openParams := none,
               runtime := collectRuntimeMetadata env cs } else none).map stripMeta
      = (if cfg.writeMetadata then
          some { scriptPath := cs, openParams := some params,
                 runtime := collectRuntimeMetadata env cs } else none).map stripMeta := by
    intro cs
    by_cases hwm : cfg.writeMetadata = true <;> simp [hwm, stripMeta]
  simp only [saveOutput, recordWrite]
  cases hcs : findCallingScript env.abspath env.basePref env.trackerFile env.stack with
  | none =>
    simp only [hcs]
    have hp := pipeline_obs_congr env cfg
      { w with fs := fsWrite w.fs p (FileData.text data) }
      { w with fs := fsWrite w.fs p (FileData.text data),
               trace := w.trace ++ [(p, params)] }
      p _ _ none rfl rfl rfl (hm none)
    exact ⟨hp.1, hp.2.1, hp.2.2, trivial⟩
  | some cs =>
    simp only [hcs]
    have hsn := writeSnapshots_obs_congr env cfg
      { w with fs := fsWrite w.fs p (FileData.text data) }
      { w with fs := fsWrite w.fs p (FileData.text data),
               trace := w.trace ++ [(p, params)] }
      p cs rfl rfl
    have hpS := fun m1 m2 hm12 => pipeline_obs_congr env cfg
      (writeScriptSnapshots env cfg { w with fs := fsWrite w.fs p (FileData.text data) } p cs)
      (writeScriptSnapshots env cfg
        { w with fs := fsWrite w.fs p (FileData.text data),
                 trace := w.trace ++ [(p, params)] } p cs)
      p m1 m2 (some cs) hsn.1 hsn.2.1 hsn.2.2 hm12
    have hpN := fun m1 m2 hm12 => pipeline_obs_congr env cfg
      { w with fs := fsWrite w.fs p (FileData.text data) }
      { w with fs := fsWrite w.fs p (FileData.text data),
               trace := w.trace ++ [(p, params)] }
      p m1 m2 (some cs) rfl rfl rfl hm12
    repeat' split
    all_goals
      first
      | (exact ⟨(hpS _ _ (by simp [stripMeta])).1, (hpS _ _ (by simp [stripMeta])).2.1,
          (hpS _ _ (by simp [stripMeta])).2.2, trivial⟩)
      | (exact ⟨(hpN _ _ (by simp [stripMeta])).1, (hpN _ _ (by simp [stripMeta])).2.1,
          (hpN _ _ (by simp [stripMeta])).2.2, trivial⟩)

end WhichScript
